import Mathlib

/-!
Shallow embedding of `test_cases/ocean/landice/hydro-radial/
setup_hydro-radial_initial_conditions.py`.

The script opens a NetCDF mesh file, recenters the mesh so that the cell
nearest the bounding-box midpoint of the cell coordinates sits at the origin,
and then fills the initial-condition fields (thickness, bed topography, layer
thickness fractions, melt input, reconstructed velocity, water thickness) by
elementwise closed-form formulas of the post-recentering radial distance.

Machine floating-point arithmetic is modelled by exact rational arithmetic
(`ℚ`).  The one primitive that does not stay inside `ℚ` is numpy's `** 0.5`
(square root), used on line 38/57 to turn squared distances into distances;
it is modelled as an explicit function parameter `sqrtFn : ℚ → ℚ`, and the
theorems that depend on its behaviour assume exactly the property the real
square root has on the nonnegative inputs it is applied to (strict
monotonicity).  Everything downstream of line 57 consumes the radius array
`r` itself, so those phases are embedded as functions of the radius array.
-/

namespace HydroRadial

/-- The in-memory view of the NetCDF dataset: every variable the script reads
or writes.  `thickness`, `meltInput`, `waterThickness` carry a leading time
dimension (the script writes index `0`); `uReconstructX` is
time × cell × vertical level. -/
structure Grid where
  nVertLevels : ℕ
  xCell : List ℚ
  yCell : List ℚ
  xEdge : List ℚ
  yEdge : List ℚ
  xVertex : List ℚ
  yVertex : List ℚ
  thickness : List (List ℚ)
  bedTopography : List ℚ
  layerThicknessFractions : List ℚ
  sfcMassBal : List ℚ
  meltInput : List ℚ
  uReconstructX : List (List (List ℚ))
  waterThickness : List (List ℚ)
  deriving Repr, DecidableEq

/-- Minimum of a list of rationals (numpy `min`; the empty case never occurs
in the program and defaults to 0). -/
def listMin : List ℚ → ℚ
  | [] => 0
  | [a] => a
  | a :: b :: t => min a (listMin (b :: t))

/-- Maximum of a list of rationals (numpy `max`). -/
def listMax : List ℚ → ℚ
  | [] => 0
  | [a] => a
  | a :: b :: t => max a (listMax (b :: t))

/-- numpy `argmin`: index of the first occurrence of the minimum value
(ties broken by the lowest index). -/
def argminIdx : List ℚ → ℕ
  | [] => 0
  | [_] => 0
  | a :: b :: t => if a ≤ listMin (b :: t) then 0 else argminIdx (b :: t) + 1

/-- Line 35: `x0 = xCell[:].min() + 0.5 * (xCell[:].max() - xCell[:].min())`. -/
def domainCenterX (g : Grid) : ℚ :=
  listMin g.xCell + (1 / 2) * (listMax g.xCell - listMin g.xCell)

/-- Line 36: the bounding-box midpoint of the y coordinates. -/
def domainCenterY (g : Grid) : ℚ :=
  listMin g.yCell + (1 / 2) * (listMax g.yCell - listMin g.yCell)

/-- Line 38 before the square root: the squared distance of every cell
center from the domain center `(x0, y0)`. -/
def cellDistSq (g : Grid) : List ℚ :=
  List.zipWith (fun x y => (x - domainCenterX g) ^ 2 + (y - domainCenterY g) ^ 2)
    g.xCell g.yCell

/-- Lines 38 and 44: `r = ((xCell-x0)**2 + (yCell-y0)**2)**0.5` followed by
`centerCellIndex = np.abs(r[:]).argmin()`, with `** 0.5` modelled by the
parameter `sqrtFn`. -/
def centerCellIndex (sqrtFn : ℚ → ℚ) (g : Grid) : ℕ :=
  argminIdx (((cellDistSq g).map sqrtFn).map (fun t => |t|))

/-- Lines 46–53: shift every cell, edge and vertex coordinate by the negated
coordinates of the center cell (`putOriginOnACell` is hard-coded `True`). -/
def recenter (sqrtFn : ℚ → ℚ) (g : Grid) : Grid :=
  let xShift := -1 * g.xCell.getD (centerCellIndex sqrtFn g) 0
  let yShift := -1 * g.yCell.getD (centerCellIndex sqrtFn g) 0
  { g with
    xCell := g.xCell.map (· + xShift)
    yCell := g.yCell.map (· + yShift)
    xEdge := g.xEdge.map (· + xShift)
    yEdge := g.yEdge.map (· + yShift)
    xVertex := g.xVertex.map (· + xShift)
    yVertex := g.yVertex.map (· + yShift) }

/-- Lines 55–57: after the shift the origin is reset to `(0, 0)` and the
radius array is recomputed: `r = ((xCell-0)**2 + (yCell-0)**2)**0.5`. -/
def radiusArray (sqrtFn : ℚ → ℚ) (g : Grid) : List ℚ :=
  (List.zipWith (fun x y => (x - 0) ^ 2 + (y - 0) ^ 2) g.xCell g.yCell).map sqrtFn

/-- Line 60: `r0 = 25000.0`. -/
def r0 : ℚ := 25000

/-- Lines 61–62, elementwise on the bottom (index 0) thickness row, where
`row0` is the incoming row and `r` the post-recentering radius array:
`thickness[0, r<r0] = 500.0 * (1.0 - (r[r<r0] / r0)**2)` then
`thickness[0, r>22500.0] = 0.0` (the second masked write overrides the
first on the overlap). -/
def thicknessRow (row0 : List ℚ) (r : List ℚ) : List ℚ :=
  let row1 := List.zipWith (fun t ri => if ri < r0 then 500 * (1 - (ri / r0) ^ 2) else t) row0 r
  List.zipWith (fun t ri => if ri > 22500 then 0 else t) row1 r

/-- Line 69: `layerThicknessFractions[:] = 1.0 / nVertLevels`. -/
def layerThicknessFractionsUpdate (n : ℕ) (old : List ℚ) : List ℚ :=
  old.map (fun _ => 1 / (n : ℚ))

/-- Lines 72–73: `meltInput[:] = 0.0` then `meltInput[:] = 0.0002`. -/
def meltInputUpdate (old : List ℚ) : List ℚ :=
  ((old.map (fun _ => (0 : ℚ))).map (fun _ => (2 / 10000 : ℚ)))

/-- Lines 78–80: `velo = r*0.0`, overwritten by
`velo = (r-5000.0)*100.0/3.14e7/22500.0`, then `velo[r<5000.0] = 0.0`. -/
def veloFinal (r : List ℚ) : List ℚ :=
  let velo := r.map (fun ri => ri * 0)
  let velo := r.map (fun ri => (ri - 5000) * 100 / 31400000 / 22500)
  List.zipWith (fun v ri => if ri < 5000 then 0 else v) velo r

/-- Lines 81–82 acting on `u0 = uReconstructX[0]` (a per-cell list of
per-level values), with `thickRow` the final bottom thickness row:
`uReconstructX[0,:,-1] = velo` writes the last level of every cell, then
`uReconstructX[0, thickness[0,:]==0.0, :] = 0.0` zeroes every level of the
cells whose final thickness is zero. -/
def uReconstructXUpdate (u0 : List (List ℚ)) (thickRow : List ℚ) (r : List ℚ) :
    List (List ℚ) :=
  let u1 := List.zipWith (fun levels v => levels.set (levels.length - 1) v) u0 (veloFinal r)
  List.zipWith (fun levels th => if th = 0 then levels.map (fun _ => (0 : ℚ)) else levels)
    u1 thickRow

/-- Line 85: `waterThickness[0,:] = (r-5000.0)/r0 * 0.5 * 0.0`. -/
def waterThicknessRow (r : List ℚ) : List ℚ :=
  r.map (fun ri => (ri - 5000) / r0 * (1 / 2) * 0)

/-- The whole script, lines 34–87: recenter the mesh, recompute the radius
array, then fill every field.  `sqrtFn` stands for numpy's `** 0.5`. -/
def setupInitialConditions (sqrtFn : ℚ → ℚ) (g : Grid) : Grid :=
  let g1 := recenter sqrtFn g
  let r := radiusArray sqrtFn g1
  let thickness1 : List (List ℚ) :=
    match g1.thickness with
    | [] => []
    | row0 :: rest => thicknessRow row0 r :: rest
  let thickRow := thickness1.getD 0 []
  let uRX1 : List (List (List ℚ)) :=
    match g1.uReconstructX with
    | [] => []
    | t0 :: rest => uReconstructXUpdate t0 thickRow r :: rest
  let water1 : List (List ℚ) :=
    match g1.waterThickness with
    | [] => []
    | _w0 :: rest => waterThicknessRow r :: rest
  { g1 with
    thickness := thickness1
    bedTopography := g1.bedTopography.map (fun _ => 0)
    layerThicknessFractions :=
      layerThicknessFractionsUpdate g1.nVertLevels g1.layerThicknessFractions
    meltInput := meltInputUpdate g1.meltInput
    uReconstructX := uRX1
    waterThickness := water1 }

/-- Mesh points of the three kinds whose coordinates the recentering
translates. -/
inductive MeshPoint where
  | cell (i : ℕ)
  | edge (i : ℕ)
  | vertex (i : ℕ)
  deriving DecidableEq, Repr

/-- The x coordinate of a mesh point (0 when the index is out of range). -/
def coordX (g : Grid) : MeshPoint → ℚ
  | .cell i => g.xCell.getD i 0
  | .edge i => g.xEdge.getD i 0
  | .vertex i => g.xVertex.getD i 0

/-- The y coordinate of a mesh point (0 when the index is out of range). -/
def coordY (g : Grid) : MeshPoint → ℚ
  | .cell i => g.yCell.getD i 0
  | .edge i => g.yEdge.getD i 0
  | .vertex i => g.yVertex.getD i 0

/-- A mesh point index that is in range of the corresponding coordinate
arrays. -/
def inBounds (g : Grid) : MeshPoint → Prop
  | .cell i => i < g.xCell.length ∧ i < g.yCell.length
  | .edge i => i < g.xEdge.length ∧ i < g.yEdge.length
  | .vertex i => i < g.xVertex.length ∧ i < g.yVertex.length

instance (g : Grid) (p : MeshPoint) : Decidable (inBounds g p) := by
  cases p <;> exact inferInstanceAs (Decidable (_ ∧ _))

/-- The spec's notion of the cell nearest the bounding-box midpoint, ties
broken by the lowest index.  Minimizing the Euclidean distance is the same
as minimizing its square, because both are nonnegative and squaring is
strictly monotone there; this definition minimizes the squared distance so
that it stays inside `ℚ`, and the bridge to the program's
`centerCellIndex` (which minimizes `|sqrtFn _|` values) is proved below
for every `sqrtFn` strictly monotone on nonnegative inputs. -/
def nearestToCenterIdx (g : Grid) : ℕ :=
  argminIdx (cellDistSq g)

/-! ### Lemmas about `listMin` and `argminIdx` -/

theorem listMin_cons_cons (a b : ℚ) (t : List ℚ) :
    listMin (a :: b :: t) = min a (listMin (b :: t)) := rfl

theorem argminIdx_cons_cons (a b : ℚ) (t : List ℚ) :
    argminIdx (a :: b :: t) =
      if a ≤ listMin (b :: t) then 0 else argminIdx (b :: t) + 1 := rfl

theorem listMin_mem : ∀ {l : List ℚ}, l ≠ [] → listMin l ∈ l
  | [], h => absurd rfl h
  | [a], _ => by simp [listMin]
  | a :: b :: t, _ => by
      rw [listMin_cons_cons]
      rcases le_total a (listMin (b :: t)) with h | h
      · rw [min_eq_left h]; exact List.mem_cons_self a _
      · rw [min_eq_right h]
        exact List.mem_cons_of_mem a (listMin_mem (by simp))

theorem argminIdx_lt_length : ∀ {l : List ℚ}, l ≠ [] → argminIdx l < l.length
  | [], h => absurd rfl h
  | [a], _ => by simp [argminIdx]
  | a :: b :: t, _ => by
      rw [argminIdx_cons_cons]
      by_cases h : a ≤ listMin (b :: t)
      · simp [h]
      · have ih := argminIdx_lt_length (l := b :: t) (by simp)
        simp only [if_neg h, List.length_cons] at ih ⊢
        omega

/-- A function strictly monotone on nonnegatives reflects `≤` there. -/
theorem mono_le_iff (f : ℚ → ℚ)
    (hf : ∀ a b : ℚ, 0 ≤ a → 0 ≤ b → a < b → f a < f b)
    {a b : ℚ} (ha : 0 ≤ a) (hb : 0 ≤ b) : f a ≤ f b ↔ a ≤ b := by
  constructor
  · intro h
    by_contra hab
    push_neg at hab
    exact absurd h (not_le.mpr (hf b a hb ha hab))
  · intro h
    rcases h.lt_or_eq with h1 | h1
    · exact (hf a b ha hb h1).le
    · rw [h1]

/-- A strictly monotone map commutes with the minimum of a nonnegative
list. -/
theorem listMin_map (f : ℚ → ℚ)
    (hf : ∀ a b : ℚ, 0 ≤ a → 0 ≤ b → a < b → f a < f b) :
    ∀ (l : List ℚ), l ≠ [] → (∀ x ∈ l, 0 ≤ x) →
      listMin (l.map f) = f (listMin l)
  | [], h, _ => absurd rfl h
  | [a], _, _ => by simp [listMin]
  | a :: b :: t, _, hnn => by
      have hbt : (b :: t) ≠ [] := by simp
      have hnn2 : ∀ x ∈ b :: t, 0 ≤ x :=
        fun x hx => hnn x (List.mem_cons_of_mem a hx)
      have han : 0 ≤ a := hnn a (List.mem_cons_self a _)
      have hmn : 0 ≤ listMin (b :: t) := hnn2 _ (listMin_mem hbt)
      have ih := listMin_map f hf (b :: t) hbt hnn2
      show listMin (f a :: (b :: t).map f) = f (min a (listMin (b :: t)))
      rcases List.exists_cons_of_ne_nil (l := (b :: t).map f) (by simp) with ⟨c, t2, hct⟩
      rw [hct, listMin_cons_cons, ← hct, ih]
      rcases le_total a (listMin (b :: t)) with h | h
      · rw [min_eq_left h, min_eq_left ((mono_le_iff f hf han hmn).mpr h)]
      · rw [min_eq_right h, min_eq_right ((mono_le_iff f hf hmn han).mpr h)]

/-- numpy `argmin` is invariant under a map that is strictly monotone on the
(nonnegative) values of the list: the first index attaining the minimum is
the same. -/
theorem argminIdx_map (f : ℚ → ℚ)
    (hf : ∀ a b : ℚ, 0 ≤ a → 0 ≤ b → a < b → f a < f b) :
    ∀ (l : List ℚ), (∀ x ∈ l, 0 ≤ x) → argminIdx (l.map f) = argminIdx l
  | [], _ => rfl
  | [_], _ => rfl
  | a :: b :: t, hnn => by
      have hbt : (b :: t) ≠ [] := by simp
      have hnn2 : ∀ x ∈ b :: t, 0 ≤ x :=
        fun x hx => hnn x (List.mem_cons_of_mem a hx)
      have han : 0 ≤ a := hnn a (List.mem_cons_self a _)
      have hmn : 0 ≤ listMin (b :: t) := hnn2 _ (listMin_mem hbt)
      have ihmin := listMin_map f hf (b :: t) hbt hnn2
      have ih := argminIdx_map f hf (b :: t) hnn2
      show argminIdx (f a :: (b :: t).map f) = _
      rcases List.exists_cons_of_ne_nil (l := (b :: t).map f) (by simp) with ⟨c, t2, hct⟩
      rw [hct, argminIdx_cons_cons, ← hct, ihmin, ih, argminIdx_cons_cons]
      by_cases h : a ≤ listMin (b :: t)
      · rw [if_pos ((mono_le_iff f hf han hmn).mpr h), if_pos h]
      · rw [if_neg (fun hc => h ((mono_le_iff f hf han hmn).mp hc)), if_neg h]

/-- Every entry of the squared-distance array is nonnegative. -/
theorem cellDistSq_nonneg (g : Grid) : ∀ x ∈ cellDistSq g, 0 ≤ x := by
  intro x hx
  unfold cellDistSq at hx
  rw [List.mem_iff_getElem] at hx
  obtain ⟨i, hi, rfl⟩ := hx
  rw [List.getElem_zipWith]
  positivity

theorem cellDistSq_length (g : Grid) (hlen : g.yCell.length = g.xCell.length) :
    (cellDistSq g).length = g.xCell.length := by
  unfold cellDistSq
  rw [List.length_zipWith, hlen, min_self]

/-- Bridge between the program's argmin (over `|sqrtFn _|` of the squared
distances) and the spec's nearest-cell index (argmin of the squared
distances), for any `sqrtFn` strictly monotone on nonnegative inputs after
taking the absolute value — as the real square root composed with `abs`
is. -/
theorem centerCellIndex_eq_nearest (sqrtFn : ℚ → ℚ) (g : Grid)
    (hmono : ∀ a b : ℚ, 0 ≤ a → 0 ≤ b → a < b → |sqrtFn a| < |sqrtFn b|) :
    centerCellIndex sqrtFn g = nearestToCenterIdx g := by
  unfold centerCellIndex nearestToCenterIdx
  rw [List.map_map]
  exact argminIdx_map (fun t => |sqrtFn t|) hmono (cellDistSq g) (cellDistSq_nonneg g)

/-! ### Pointwise characterizations of the field updates -/

/-- The final bottom thickness row, cell by cell: the `r > 22500` zeroing
(line 62) overrides the formula write (line 61), which itself overrides the
incoming value only where `r < r0`. -/
theorem thicknessRow_getD (row0 r : List ℚ) (c : ℕ)
    (hc : c < row0.length) (hcr : c < r.length) :
    (thicknessRow row0 r).getD c 0 =
      if r.getD c 0 > 22500 then 0
      else if r.getD c 0 < r0 then 500 * (1 - (r.getD c 0 / r0) ^ 2)
      else row0.getD c 0 := by
  show (List.zipWith (fun t ri => if ri > 22500 then 0 else t)
      (List.zipWith (fun t ri => if ri < r0 then 500 * (1 - (ri / r0) ^ 2) else t) row0 r)
      r).getD c 0 = _
  have h1 : c < (List.zipWith
      (fun t ri => if ri < r0 then 500 * (1 - (ri / r0) ^ 2) else t) row0 r).length := by
    rw [List.length_zipWith]; omega
  have h2 : c < (List.zipWith (fun t ri => if ri > 22500 then 0 else t)
      (List.zipWith (fun t ri => if ri < r0 then 500 * (1 - (ri / r0) ^ 2) else t) row0 r)
      r).length := by
    rw [List.length_zipWith, List.length_zipWith]; omega
  rw [List.getD_eq_getElem _ _ h2, List.getElem_zipWith, List.getElem_zipWith,
    List.getD_eq_getElem _ _ hcr, List.getD_eq_getElem _ _ hc]

theorem veloFinal_length (r : List ℚ) : (veloFinal r).length = r.length := by
  show (List.zipWith (fun v ri => if ri < 5000 then 0 else v)
      (r.map fun ri => (ri - 5000) * 100 / 31400000 / 22500) r).length = _
  rw [List.length_zipWith, List.length_map, min_self]

/-- The velocity row, cell by cell: the formula of line 79, clamped to 0 on
line 80 for `r < 5000`. -/
theorem veloFinal_getD (r : List ℚ) (c : ℕ) (hc : c < r.length) :
    (veloFinal r).getD c 0 =
      if r.getD c 0 < 5000 then 0
      else (r.getD c 0 - 5000) * 100 / 31400000 / 22500 := by
  show (List.zipWith (fun v ri => if ri < 5000 then 0 else v)
      (r.map fun ri => (ri - 5000) * 100 / 31400000 / 22500) r).getD c 0 = _
  have h1 : c < (List.zipWith (fun v ri => if ri < 5000 then 0 else v)
      (r.map fun ri => (ri - 5000) * 100 / 31400000 / 22500) r).length := by
    rw [List.length_zipWith, List.length_map]; omega
  rw [List.getD_eq_getElem _ _ h1, List.getElem_zipWith, List.getElem_map,
    List.getD_eq_getElem _ _ hc]

/-- The per-cell effect of lines 81–82 on `uReconstructX[0]`: cells whose
final thickness is zero get all levels zeroed; every other cell gets the
velocity value written at its last level only. -/
theorem uReconstructXUpdate_getD (u0 : List (List ℚ)) (thickRow r : List ℚ)
    (c : ℕ) (hcu : c < u0.length) (hct : c < thickRow.length) (hcr : c < r.length) :
    (uReconstructXUpdate u0 thickRow r).getD c [] =
      if thickRow.getD c 0 = 0 then (u0.getD c []).map (fun _ => 0)
      else (u0.getD c []).set ((u0.getD c []).length - 1)
        (if r.getD c 0 < 5000 then 0
         else (r.getD c 0 - 5000) * 100 / 31400000 / 22500) := by
  show (List.zipWith (fun levels th => if th = 0 then levels.map (fun _ => (0 : ℚ)) else levels)
      (List.zipWith (fun levels v => levels.set (levels.length - 1) v) u0 (veloFinal r))
      thickRow).getD c [] = _
  have hv : c < (veloFinal r).length := by rw [veloFinal_length]; exact hcr
  have h1 : c < (List.zipWith (fun levels v => levels.set (levels.length - 1) v)
      u0 (veloFinal r)).length := by
    rw [List.length_zipWith, veloFinal_length]; omega
  have h2 : c < (List.zipWith
      (fun levels th => if th = 0 then levels.map (fun _ => (0 : ℚ)) else levels)
      (List.zipWith (fun levels v => levels.set (levels.length - 1) v) u0 (veloFinal r))
      thickRow).length := by
    rw [List.length_zipWith, List.length_zipWith, veloFinal_length]; omega
  rw [List.getD_eq_getElem _ _ h2, List.getElem_zipWith, List.getElem_zipWith,
    List.getD_eq_getElem _ _ hct, List.getD_eq_getElem _ _ hcu]
  have hvelo : (veloFinal r)[c] =
      if r.getD c 0 < 5000 then 0
      else (r.getD c 0 - 5000) * 100 / 31400000 / 22500 := by
    rw [← List.getD_eq_getElem _ 0 hv]
    exact veloFinal_getD r c hcr
  rw [hvelo]
  split
  · rw [List.map_set, List.map_const', List.set_replicate_self]
  · rfl

/-- Lines 46–53 shift every coordinate of every kind of mesh point by the
same vector, the negated coordinates of the center cell. -/
theorem recenter_coord (sqrtFn : ℚ → ℚ) (g : Grid) (p : MeshPoint)
    (hp : inBounds g p) :
    coordX (recenter sqrtFn g) p
        = coordX g p - g.xCell.getD (centerCellIndex sqrtFn g) 0 ∧
    coordY (recenter sqrtFn g) p
        = coordY g p - g.yCell.getD (centerCellIndex sqrtFn g) 0 := by
  obtain ⟨i⟩ | ⟨i⟩ | ⟨i⟩ := p <;>
    obtain ⟨hpx, hpy⟩ := hp <;>
    constructor <;>
    · simp only [coordX, coordY]
      show (List.map _ _).getD i 0 = _
      rw [List.getD_eq_getElem _ _ (by rw [List.length_map]; assumption),
        List.getElem_map, ← List.getD_eq_getElem _ 0 (by assumption)]
      ring

/-- A small concrete mesh used to instantiate the theorems: three cells on
a line at x = 0, 4, 6, so the bounding-box midpoint is x0 = 3 and the
(unique) nearest cell is index 1 at (4, 0). -/
def sampleGrid : Grid where
  nVertLevels := 2
  xCell := [0, 4, 6]
  yCell := [0, 0, 0]
  xEdge := [1, 2]
  yEdge := [0, 0]
  xVertex := [5]
  yVertex := [1]
  thickness := [[1, 1, 1]]
  bedTopography := [3, 3, 3]
  layerThicknessFractions := [9, 9]
  sfcMassBal := [0, 0, 0]
  meltInput := [7, 7, 7]
  uReconstructX := [[[1, 2], [3, 4], [5, 6]]]
  waterThickness := [[8, 8, 8]]

/-! ### The claims -/

/-- C1: after the Recentering Transform, the cell whose center is nearest
(ties broken by the lowest index) to the bounding-box midpoint of all cell
coordinates has coordinates exactly (0, 0), for any mesh with at least one
cell, aligned coordinate arrays, and any square-root primitive whose
absolute value is strictly monotone on nonnegative inputs — the property
the real square root has. -/
theorem recentered_nearest_cell_at_origin (sqrtFn : ℚ → ℚ) (g : Grid)
    (hne : g.xCell ≠ [])
    (hlen : g.yCell.length = g.xCell.length)
    (hmono : ∀ a b : ℚ, 0 ≤ a → 0 ≤ b → a < b → |sqrtFn a| < |sqrtFn b|) :
    (recenter sqrtFn g).xCell.getD (nearestToCenterIdx g) 0 = 0 ∧
    (recenter sqrtFn g).yCell.getD (nearestToCenterIdx g) 0 = 0 := by
  have hcc := centerCellIndex_eq_nearest sqrtFn g hmono
  have hlen2 := cellDistSq_length g hlen
  have hnonempty : cellDistSq g ≠ [] := by
    intro h
    apply hne
    have h0 : (cellDistSq g).length = 0 := by rw [h]; rfl
    rw [hlen2] at h0
    exact List.eq_nil_of_length_eq_zero h0
  have hj : nearestToCenterIdx g < g.xCell.length := by
    have h1 := argminIdx_lt_length hnonempty
    rw [hlen2] at h1
    exact h1
  have hjy : nearestToCenterIdx g < g.yCell.length := by rw [hlen]; exact hj
  constructor
  · show (g.xCell.map (· + (-1 * g.xCell.getD (centerCellIndex sqrtFn g) 0))).getD _ 0 = 0
    rw [hcc, List.getD_eq_getElem _ _ (by rw [List.length_map]; exact hj),
      List.getElem_map, ← List.getD_eq_getElem _ 0 hj]
    ring
  · show (g.yCell.map (· + (-1 * g.yCell.getD (centerCellIndex sqrtFn g) 0))).getD _ 0 = 0
    rw [hcc, List.getD_eq_getElem _ _ (by rw [List.length_map]; exact hjy),
      List.getElem_map, ← List.getD_eq_getElem _ 0 hjy]
    ring

theorem recentered_nearest_cell_at_origin_witness :
    (recenter (fun t => t) sampleGrid).xCell.getD (nearestToCenterIdx sampleGrid) 0 = 0 ∧
    (recenter (fun t => t) sampleGrid).yCell.getD (nearestToCenterIdx sampleGrid) 0 = 0 :=
  recentered_nearest_cell_at_origin (fun t => t) sampleGrid (by decide) (by decide)
    (fun a b ha hb hab => by rwa [abs_of_nonneg ha, abs_of_nonneg hb])

/-- C7: the Recentering Transform is a pure rigid translation: every cell,
edge and vertex coordinate moves by one and the same shift vector (the
negation of the chosen center cell's coordinates), so the coordinate
difference of any two in-range mesh points is the same before and after. -/
theorem recenter_rigid_translation (sqrtFn : ℚ → ℚ) (g : Grid)
    (p q : MeshPoint) (hp : inBounds g p) (hq : inBounds g q) :
    (coordX (recenter sqrtFn g) p
        = coordX g p - g.xCell.getD (centerCellIndex sqrtFn g) 0 ∧
      coordY (recenter sqrtFn g) p
        = coordY g p - g.yCell.getD (centerCellIndex sqrtFn g) 0) ∧
    coordX (recenter sqrtFn g) p - coordX (recenter sqrtFn g) q
        = coordX g p - coordX g q ∧
    coordY (recenter sqrtFn g) p - coordY (recenter sqrtFn g) q
        = coordY g p - coordY g q := by
  obtain ⟨hpx, hpy⟩ := recenter_coord sqrtFn g p hp
  obtain ⟨hqx, hqy⟩ := recenter_coord sqrtFn g q hq
  refine ⟨⟨hpx, hpy⟩, ?_, ?_⟩
  · rw [hpx, hqx]; ring
  · rw [hpy, hqy]; ring

theorem recenter_rigid_translation_witness :
    (coordX (recenter (fun t => t) sampleGrid) (.cell 0)
        = coordX sampleGrid (.cell 0)
          - sampleGrid.xCell.getD (centerCellIndex (fun t => t) sampleGrid) 0 ∧
      coordY (recenter (fun t => t) sampleGrid) (.cell 0)
        = coordY sampleGrid (.cell 0)
          - sampleGrid.yCell.getD (centerCellIndex (fun t => t) sampleGrid) 0) ∧
    coordX (recenter (fun t => t) sampleGrid) (.cell 0)
        - coordX (recenter (fun t => t) sampleGrid) (.edge 1)
      = coordX sampleGrid (.cell 0) - coordX sampleGrid (.edge 1) ∧
    coordY (recenter (fun t => t) sampleGrid) (.cell 0)
        - coordY (recenter (fun t => t) sampleGrid) (.edge 1)
      = coordY sampleGrid (.cell 0) - coordY sampleGrid (.edge 1) :=
  recenter_rigid_translation (fun t => t) sampleGrid (.cell 0) (.edge 1)
    (by decide) (by decide)

/-- C9: the whole procedure is deterministic: two runs on identical input
datasets produce identical outputs (numpy's square root being one fixed
function, modelled by the `sqrtFn` parameter). -/
theorem setup_deterministic (sqrtFn : ℚ → ℚ) (g1 g2 : Grid) (h : g1 = g2) :
    setupInitialConditions sqrtFn g1 = setupInitialConditions sqrtFn g2 :=
  congrArg (setupInitialConditions sqrtFn) h

theorem setup_deterministic_witness :
    setupInitialConditions (fun t => t) sampleGrid
      = setupInitialConditions (fun t => t) sampleGrid :=
  setup_deterministic (fun t => t) sampleGrid sampleGrid rfl

/-- C2, counterexample: the final thickness is NOT strictly decreasing over
the whole range [0, r0): two cells at radii 23000 < 24000, both inside
[0, r0), end with equal thickness 0, because the `r > 22500` zeroing
overrides the formula on that band. -/
theorem thickness_not_strictly_decreasing_on_band :
    (0 : ℚ) ≤ 23000 ∧ (23000 : ℚ) < 24000 ∧ (24000 : ℚ) < r0 ∧
    ¬ ((thicknessRow [1, 1] [23000, 24000]).getD 1 0
        < (thicknessRow [1, 1] [23000, 24000]).getD 0 0) := by
  decide

/-- C2, amended: the final bottom-layer thickness follows
`500 * (1 - (r/r0)^2)` and is strictly decreasing in the radius as long as
the smaller radius is ≤ 22500 (past 22500 the zeroing write makes it
constantly 0, so only non-strict decrease holds there), and it is 0 at
`r = r0`. -/
theorem thickness_strictly_decreasing (row0 r : List ℚ) (c1 c2 : ℕ)
    (h1 : c1 < row0.length) (h1r : c1 < r.length)
    (h2 : c2 < row0.length) (h2r : c2 < r.length)
    (hr1 : 0 ≤ r.getD c1 0) (hlt : r.getD c1 0 < r.getD c2 0)
    (hband : r.getD c1 0 ≤ 22500) (hr2 : r.getD c2 0 < r0) :
    (thicknessRow row0 r).getD c2 0 < (thicknessRow row0 r).getD c1 0 ∧
    (∀ c3, c3 < row0.length → c3 < r.length → r.getD c3 0 = r0 →
      (thicknessRow row0 r).getD c3 0 = 0) := by
  constructor
  · rw [thicknessRow_getD row0 r c1 h1 h1r, thicknessRow_getD row0 r c2 h2 h2r]
    simp only [r0] at hr2 ⊢
    set a := r.getD c1 0 with ha
    set b := r.getD c2 0 with hb
    have hna : ¬ (a > 22500) := by push_neg; exact hband
    have har0 : a < 25000 := by linarith
    have hxnn : 0 ≤ a / 25000 := by positivity
    have hx1 : a / 25000 < 1 := by
      rw [div_lt_one (show (0:ℚ) < 25000 by norm_num)]; exact har0
    by_cases hc : b > 22500
    · rw [if_pos hc, if_neg hna, if_pos har0]
      nlinarith [mul_pos (show (0:ℚ) < 1 - a / 25000 by linarith)
        (show (0:ℚ) < 1 + a / 25000 by linarith)]
    · rw [if_neg hc, if_pos hr2, if_neg hna, if_pos har0]
      have hxy : a / 25000 < b / 25000 := by linarith
      have hsq : (a / 25000) ^ 2 < (b / 25000) ^ 2 := by
        nlinarith [mul_pos (show (0:ℚ) < b / 25000 - a / 25000 by linarith)
          (show (0:ℚ) < b / 25000 + a / 25000 by linarith)]
      linarith
  · intro c3 h3 h3r hc3
    rw [thicknessRow_getD row0 r c3 h3 h3r, hc3]
    simp only [r0]
    norm_num

/-- C3: for every cell with radius strictly above 22500 — including the
band up to r0 where the formula write also fires — the final bottom
thickness is exactly 0: the later zeroing write wins. -/
theorem thickness_zero_override (row0 r : List ℚ) (c : ℕ)
    (hc : c < row0.length) (hcr : c < r.length) (hr : 22500 < r.getD c 0) :
    (thicknessRow row0 r).getD c 0 = 0 := by
  rw [thicknessRow_getD row0 r c hc hcr, if_pos hr]

theorem thickness_zero_override_witness :
    (thicknessRow [1] [23000]).getD 0 0 = 0 :=
  thickness_zero_override [1] [23000] 0 (by decide) (by decide) (by norm_num)

/-- C10: at radius exactly 22500 both masks use strict inequalities, so the
formula write applies and the zeroing write does not: the final thickness
is `500 * (1 - (22500/25000)^2) = 95`. -/
theorem thickness_at_boundary_22500 (row0 r : List ℚ) (c : ℕ)
    (hc : c < row0.length) (hcr : c < r.length) (hr : r.getD c 0 = 22500) :
    (thicknessRow row0 r).getD c 0 = 95 := by
  rw [thicknessRow_getD row0 r c hc hcr, hr]
  simp only [r0]
  norm_num

theorem thickness_at_boundary_22500_witness :
    (thicknessRow [1] [22500]).getD 0 0 = 95 :=
  thickness_at_boundary_22500 [1] [22500] 0 (by decide) (by decide) (by decide)

theorem thickness_strictly_decreasing_witness :
    (thicknessRow [5, 5] [1000, 2000]).getD 1 0
        < (thicknessRow [5, 5] [1000, 2000]).getD 0 0 ∧
    (∀ c3, c3 < ([5, 5] : List ℚ).length → c3 < ([1000, 2000] : List ℚ).length →
      ([1000, 2000] : List ℚ).getD c3 0 = r0 →
      (thicknessRow [5, 5] [1000, 2000]).getD c3 0 = 0) :=
  thickness_strictly_decreasing [5, 5] [1000, 2000] 0 1 (by decide) (by decide)
    (by decide) (by decide) (by decide) (by decide) (by decide) (by decide)

/-- C4, counterexample: the claim states the top-level velocity formula
with the constant `pi * 1e7`; the code divides by the literal `3.14e7`,
and `3.14 < π`, so at a qualifying cell (radius 10000, thickness 95, two
levels) the written value differs from the claimed one. -/
theorem top_level_velocity_pi_counterexample :
    ((((uReconstructXUpdate [[0, 0]] [95] [10000]).getD 0 []).getD 1 0 : ℚ) : ℝ) ≠
      ((10000 : ℝ) - 5000) * 100 / (Real.pi * 1e7) / 22500 := by
  have hval : ((uReconstructXUpdate [[0, 0]] [95] [10000]).getD 0 []).getD 1 0
      = (1 / 1413000 : ℚ) := by
    norm_num [uReconstructXUpdate, veloFinal]
  rw [hval]
  have hlt : ((10000 : ℝ) - 5000) * 100 / (Real.pi * 1e7) / 22500
      < ((1 / 1413000 : ℚ) : ℝ) := by
    have h1 : ((1 / 1413000 : ℚ) : ℝ) = 500000 / (3.14e7 * 22500) := by norm_num
    have h2 : ((10000 : ℝ) - 5000) * 100 / (Real.pi * 1e7) / 22500
        = 500000 / (Real.pi * 1e7 * 22500) := by
      rw [div_div]; norm_num
    rw [h1, h2]
    apply div_lt_div_of_pos_left (by norm_num) (by norm_num)
    nlinarith [Real.pi_gt_d2]
  exact ne_of_gt hlt

/-- C4, amended: with the code's literal constant `3.14e7` in place of the
claim's `pi * 1e7`, the final top-level (last vertical index) value of
`uReconstructX` is `(r - 5000) * 100 / 3.14e7 / 22500` at cells with
`r ≥ 5000` and nonzero final bottom thickness, and 0 at cells with
`r < 5000` or zero final bottom thickness. -/
theorem top_level_velocity (u0 : List (List ℚ)) (thickRow r : List ℚ) (c : ℕ)
    (hcu : c < u0.length) (hct : c < thickRow.length) (hcr : c < r.length)
    (hlev : (u0.getD c []).length ≠ 0) :
    ((uReconstructXUpdate u0 thickRow r).getD c []).getD ((u0.getD c []).length - 1) 0
      = if thickRow.getD c 0 = 0 ∨ r.getD c 0 < 5000 then 0
        else (r.getD c 0 - 5000) * 100 / 31400000 / 22500 := by
  rw [uReconstructXUpdate_getD u0 thickRow r c hcu hct hcr]
  by_cases hth : thickRow.getD c 0 = 0
  · rw [if_pos hth, if_pos (Or.inl hth),
      List.getD_eq_getElem _ _ (by rw [List.length_map]; omega), List.getElem_map]
  · rw [if_neg hth,
      List.getD_eq_getElem _ _ (by rw [List.length_set]; omega),
      List.getElem_set_self]
    by_cases hr5 : r.getD c 0 < 5000
    · rw [if_pos hr5, if_pos (Or.inr hr5)]
    · rw [if_neg hr5, if_neg (by tauto)]

theorem top_level_velocity_witness :
    ((uReconstructXUpdate [[0, 0]] [95] [10000]).getD 0 []).getD
        ((([[0, 0]] : List (List ℚ)).getD 0 []).length - 1) 0
      = if ([95] : List ℚ).getD 0 0 = 0 ∨ ([10000] : List ℚ).getD 0 0 < 5000 then 0
        else (([10000] : List ℚ).getD 0 0 - 5000) * 100 / 31400000 / 22500 :=
  top_level_velocity [[0, 0]] [95] [10000] 0 (by decide) (by decide) (by decide)
    (by decide)

/-- C5, counterexample: the velocity-initialization step does not leave
every non-last level unchanged: a cell with zero final thickness (radius
30000) has its level-0 entry (index 0, not the last index 1) overwritten
from 7 to 0 by the all-level zeroing write of line 82. -/
theorem uReconstructX_lower_level_changed :
    (0 : ℕ) ≠ (([[7, 0]] : List (List ℚ)).getD 0 []).length - 1 ∧
    ((uReconstructXUpdate [[7, 0]] [0] [30000]).getD 0 []).getD 0 0
      ≠ (([[7, 0]] : List (List ℚ)).getD 0 []).getD 0 0 := by
  decide

/-- C5, amended: the velocity-initialization step writes only the last
vertical level of cells whose final bottom thickness is nonzero — their
other levels keep the input values — while cells with zero final bottom
thickness have every level (last or not) set to 0. -/
theorem uReconstructX_frame (u0 : List (List ℚ)) (thickRow r : List ℚ) (c k : ℕ)
    (hcu : c < u0.length) (hct : c < thickRow.length) (hcr : c < r.length)
    (hk : k < (u0.getD c []).length) (hklast : k ≠ (u0.getD c []).length - 1) :
    (thickRow.getD c 0 ≠ 0 →
      ((uReconstructXUpdate u0 thickRow r).getD c []).getD k 0
        = (u0.getD c []).getD k 0) ∧
    (thickRow.getD c 0 = 0 →
      ((uReconstructXUpdate u0 thickRow r).getD c []).getD k 0 = 0) := by
  rw [uReconstructXUpdate_getD u0 thickRow r c hcu hct hcr]
  constructor
  · intro h
    rw [if_neg h,
      List.getD_eq_getElem _ _ (by rw [List.length_set]; exact hk),
      List.getElem_set_ne (Ne.symm hklast), ← List.getD_eq_getElem _ 0 hk]
  · intro h
    rw [if_pos h,
      List.getD_eq_getElem _ _ (by rw [List.length_map]; exact hk),
      List.getElem_map]

theorem uReconstructX_frame_witness :
    (([95] : List ℚ).getD 0 0 ≠ 0 →
      ((uReconstructXUpdate [[3, 4]] [95] [10000]).getD 0 []).getD 0 0
        = (([[3, 4]] : List (List ℚ)).getD 0 []).getD 0 0) ∧
    (([95] : List ℚ).getD 0 0 = 0 →
      ((uReconstructXUpdate [[3, 4]] [95] [10000]).getD 0 []).getD 0 0 = 0) :=
  uReconstructX_frame [[3, 4]] [95] [10000] 0 0 (by decide) (by decide) (by decide)
    (by decide) (by decide)

/-- C6: the final waterThickness value is exactly 0 at every cell (any
radius, in range or not), because the computed expression
`(r-5000)/r0 * 0.5` is multiplied by zero. -/
theorem waterThickness_identically_zero (r : List ℚ) (c : ℕ) :
    (waterThicknessRow r).getD c 0 = 0 := by
  by_cases hc : c < r.length
  · show (r.map fun ri => (ri - 5000) / r0 * (1 / 2) * 0).getD c 0 = 0
    rw [List.getD_eq_getElem _ _ (by rw [List.length_map]; exact hc),
      List.getElem_map]
    ring
  · show (r.map fun ri => (ri - 5000) / r0 * (1 / 2) * 0).getD c 0 = 0
    rw [List.getD_eq_default]
    rw [List.length_map]
    omega

/-- C8: every entry of `layerThicknessFractions` is set to `1/nVertLevels`,
and (in the exact rational arithmetic of this embedding) the entries sum to
1, for any `nVertLevels ≥ 1` and a fractions array of that length. -/
theorem layer_fractions_uniform_sum_one (n : ℕ) (old : List ℚ)
    (hn : 1 ≤ n) (hlen : old.length = n) :
    (∀ x ∈ layerThicknessFractionsUpdate n old, x = 1 / (n : ℚ)) ∧
    (layerThicknessFractionsUpdate n old).sum = 1 := by
  have hne : (n : ℚ) ≠ 0 := Nat.cast_ne_zero.mpr (by omega)
  constructor
  · intro x hx
    simp only [layerThicknessFractionsUpdate] at hx
    obtain ⟨y, hy, rfl⟩ := List.mem_map.mp hx
    rfl
  · show (old.map fun _ => 1 / (n : ℚ)).sum = 1
    rw [List.map_const', hlen, List.sum_replicate, nsmul_eq_mul, mul_one_div,
      div_self hne]

theorem layer_fractions_uniform_sum_one_witness :
    (∀ x ∈ layerThicknessFractionsUpdate 3 [0, 0, 0], x = 1 / ((3 : ℕ) : ℚ)) ∧
    (layerThicknessFractionsUpdate 3 [0, 0, 0]).sum = 1 :=
  layer_fractions_uniform_sum_one 3 [0, 0, 0] (by decide) (by decide)

end HydroRadial
